import Mathlib

/-!
Verification of the invocation execution/tracking engine of
`labthings_fastapi` (`actions.py`) against its specification.

The development shallowly embeds:
* the `InvocationStatus` enum and the mutable state of an `Invocation`;
* `Invocation.run` as the ordered list of its observable steps;
* the bounded log deque and the `ThreadLogHandler` filter;
* the `ActionManager` registry and its operations;
* the locking discipline of every access to an invocation's mutable fields;
* a trace model of the dispatcher interleaved with invocation threads.
-/

namespace LabThings

/-- Execution status of an action invocation, from the `InvocationStatus`
enum in `actions.py`: pending, running, completed, cancelled, error. -/
inductive InvocationStatus where
  | pending
  | running
  | completed
  | cancelled
  | error
deriving DecidableEq, Repr

/-- Terminal statuses: completed, cancelled and error. -/
def InvocationStatus.isTerminal : InvocationStatus → Bool
  | .completed => true
  | .cancelled => true
  | .error => true
  | _ => false

/-- Rank of a status in the order PENDING < RUNNING < terminal. -/
def statusRank : InvocationStatus → Nat
  | .pending => 0
  | .running => 1
  | _ => 2

/-- The edges of the status state machine:
PENDING → RUNNING → (COMPLETED or CANCELLED or ERROR). -/
def allowedEdge : InvocationStatus → InvocationStatus → Bool
  | .pending, .running => true
  | .running, .completed => true
  | .running, .cancelled => true
  | .running, .error => true
  | _, _ => false

/-- A Python value as far as the invocation machinery inspects one:
`PyValue.none` models Python `None`, `PyValue.str` a string (such as
`str(e)` for an exception `e`), `PyValue.obj` any other object,
identified by an opaque tag. -/
inductive PyValue where
  | none
  | str (s : String)
  | obj (n : Nat)
deriving DecidableEq, Repr

/-- The mutable state of one `Invocation` (the fields assigned in
`Invocation.__init__`), plus one ghost bit `handlerAttached` recording
whether the `ThreadLogHandler` installed by `run` is attached to the root
logger.  Timestamps (`datetime.datetime.now()` readings) are modelled as
natural numbers. -/
structure InvState where
  status : InvocationStatus
  returnValue : PyValue
  requestTime : Nat
  startTime : Option Nat
  endTime : Option Nat
  exception : Option String
  stopping : Bool
  handlerAttached : Bool
deriving DecidableEq, Repr

/-- State of a freshly constructed `Invocation` (`__init__`): status
PENDING, `_return_value = None`, request time recorded, no start or end
time, no exception, stop flag clear, no log handler attached. -/
def initState (t0 : Nat) : InvState :=
  { status := .pending, returnValue := .none, requestTime := t0,
    startTime := none, endTime := none, exception := none,
    stopping := false, handlerAttached := false }

/-- What the action call `action.__get__(thing)(**kwargs)` inside the
`try` block of `run` does: return a value, raise `SystemExit`, raise an
`Exception` whose `str` is `msg`, or raise a `BaseException` that is
neither (such as `KeyboardInterrupt`), which no `except` clause catches. -/
inductive BodyOutcome where
  | returns (v : PyValue)
  | raisesSystemExit
  | raisesException (msg : String)
  | raisesOtherBaseException
deriving DecidableEq, Repr

/-- How one execution of `Invocation.run` unfolds.  `preludeRaises`
covers an exception raised after installing the log handler but before
the `try` block is entered: in the source, `self.input.dict()` raises
`AttributeError` when `input` is `None`, and either `assert` fails when
the corresponding weak reference is dead.  `body o` covers the cases
where the `try` block is reached and the action call has outcome `o`. -/
inductive RunScenario where
  | preludeRaises
  | body (o : BodyOutcome)
deriving DecidableEq, Repr

/-- One observable step of `Invocation.run`: either a state mutation
(`mutate s` carries the state after the mutation) or the propagation of
an exception out of `run` into the thread machinery (`reraise`). -/
inductive RunStep where
  | mutate (s : InvState)
  | reraise (msg : String)
deriving DecidableEq, Repr

/-- Shallow embedding of `Invocation.run` as the ordered list of its
observable steps, starting from state `s0`, with the clock reading `t1`
at the `datetime.datetime.now()` call next to the RUNNING transition and
`t2` at the one in the `finally` block.  Following the source:
the handler is attached first; if the prelude raises, the thread dies
with no further state change (the `finally` block is outside the failing
region, so neither the end time nor the handler detach happens); otherwise
status becomes RUNNING with the start time, then the action call's outcome
is recorded (COMPLETED with the return value; CANCELLED on `SystemExit`;
ERROR with `_return_value = str(e)` and the saved exception, re-raised
after the `finally` block; an uncaught `BaseException` changes no state),
and the `finally` block sets the end time and detaches the handler. -/
def runSteps (s0 : InvState) (sc : RunScenario) (t1 t2 : Nat) : List RunStep :=
  let s1 := { s0 with handlerAttached := true }
  match sc with
  | .preludeRaises => [.mutate s1, .reraise "prelude exception"]
  | .body o =>
    let s2 := { s1 with status := .running, startTime := some t1 }
    match o with
    | .returns v =>
      let s3 := { s2 with returnValue := v, status := .completed }
      let s4 := { s3 with endTime := some t2 }
      [.mutate s1, .mutate s2, .mutate s3, .mutate s4,
        .mutate { s4 with handlerAttached := false }]
    | .raisesSystemExit =>
      let s3 := { s2 with status := .cancelled }
      let s4 := { s3 with endTime := some t2 }
      [.mutate s1, .mutate s2, .mutate s3, .mutate s4,
        .mutate { s4 with handlerAttached := false }]
    | .raisesException msg =>
      let s3 :=
        { s2 with status := .error, returnValue := .str msg, exception := some msg }
      let s4 := { s3 with endTime := some t2 }
      [.mutate s1, .mutate s2, .mutate s3, .mutate s4,
        .mutate { s4 with handlerAttached := false }, .reraise msg]
    | .raisesOtherBaseException =>
      let s3 := { s2 with endTime := some t2 }
      [.mutate s1, .mutate s2, .mutate s3,
        .mutate { s3 with handlerAttached := false },
        .reraise "base exception"]

/-- The states an external poller can observe across one execution of
`run`: the initial state followed by the state after each mutation. -/
def runTrace (s0 : InvState) (sc : RunScenario) (t1 t2 : Nat) : List InvState :=
  s0 :: (runSteps s0 sc t1 t2).filterMap fun st =>
    match st with
    | .mutate s => some s
    | .reraise _ => none

/-- Final state of the invocation after `run` has finished. -/
def runFinal (s0 : InvState) (sc : RunScenario) (t1 t2 : Nat) : InvState :=
  (runTrace s0 sc t1 t2).getLastD s0

/-- Modelled from the spec: a `requestStop()` operation is described
(`requestStop()` sets `stopRequested`=true; does not interrupt or kill the
thread; purely advisory) but no such method appears in `actions.py`, which
only declares the `stopping` event in `Invocation.__init__`.  Per the
spec's words it does nothing but set the flag. -/
def requestStop (s : InvState) : InvState :=
  { s with stopping := true }

/-- The output the spec assigns to each status: the action's return value
when COMPLETED, the textual description of the error when ERROR, and the
absent value (`None`) whenever the status is PENDING, RUNNING or
CANCELLED. -/
def expectedOutput (sc : RunScenario) (st : InvocationStatus) : PyValue :=
  match st, sc with
  | .completed, .body (.returns v) => v
  | .error, .body (.raisesException m) => .str m
  | _, _ => .none

/-- A log record as the capture machinery sees one: the identity of the
emitting thread (the value `threading.get_ident()` returns at emission
time), the severity level, and the message. -/
structure LogRecord where
  tid : Nat
  level : Nat
  msg : String
deriving DecidableEq, Repr

/-- Embedding of `collections.deque` append with a `maxlen` bound, as used
for `Invocation._log` (`deque(maxlen=log_len)`): the new element goes on
the right; once the deque holds `maxlen` elements, appending discards the
oldest element from the left. -/
def dequeAppend (maxlen : Nat) (buf : List LogRecord) (r : LogRecord) :
    List LogRecord :=
  if buf.length < maxlen then buf ++ [r]
  else (buf ++ [r]).drop (buf.length + 1 - maxlen)

/-- The contents of the bounded log deque after a sequence of records has
been appended to it through `ThreadLogHandler.emit`, starting empty. -/
def captureLog (maxlen : Nat) (records : List LogRecord) : List LogRecord :=
  records.foldl (dequeAppend maxlen) []

/-- State of a `ThreadLogHandler`: the target thread's identity captured
at construction (`self.thread_ident = thread.ident`) and the handler
severity level (`self.setLevel(level)`, `logging.INFO` by default). -/
structure ThreadLogHandler where
  thread_ident : Nat
  level : Nat
deriving DecidableEq, Repr

/-- `ThreadLogHandler.check_thread`: returns 1 when the identity of the
currently executing thread (`get_ident()` at emission time) equals the
target thread's identity, else 0.  The record itself is ignored by the
source (the `*_` parameter). -/
def check_thread (current_ident target_ident : Nat) : Nat :=
  if current_ident = target_ident then 1 else 0

/-- Whether the global logging substrate delivers record `r` to handler
`h`: the handler's severity gate (records below the handler's level are
not handled) followed by the `check_thread` filter evaluated at emission
time, when `get_ident()` is the emitting thread's identity `r.tid`. -/
def handlerAccepts (h : ThreadLogHandler) (r : LogRecord) : Bool :=
  decide (h.level ≤ r.level) && decide (check_thread r.tid h.thread_ident = 1)

/-- The log captured by one handler from the global stream of records
emitted process-wide, in emission order: exactly the records it accepts,
each appended by `emit` as it arrives. -/
def capturedRecords (h : ThreadLogHandler) (stream : List LogRecord) :
    List LogRecord :=
  stream.filter (handlerAccepts h)

/-- Assignment to a Python dict key (`self._invocations[invocation.id] =
invocation`): an existing key keeps its position and gets the new value;
a new key is appended at the end, because Python dicts preserve insertion
order.  Invocation ids and invocation handles are both modelled as
natural numbers. -/
def dictInsert : List (Nat × Nat) → Nat → Nat → List (Nat × Nat)
  | [], k, v => [(k, v)]
  | (k0, v0) :: rest, k, v =>
    if k0 = k then (k0, v) :: rest else (k0, v0) :: dictInsert rest k v

/-- The `ActionManager`: its only state is the insertion-ordered mapping
`_invocations` from invocation id to invocation handle. -/
structure ActionManager where
  invocationsDict : List (Nat × Nat)
deriving DecidableEq, Repr

/-- `ActionManager.append_invocation`: under the registry lock, store the
invocation in `_invocations` under its id. -/
def append_invocation (m : ActionManager) (id inv : Nat) : ActionManager :=
  ⟨dictInsert m.invocationsDict id inv⟩

/-- `ActionManager.invoke_action`: construct the `Invocation`, register
it with `append_invocation`, then call `thread.start()`, and return the
invocation immediately. -/
def invoke_action (m : ActionManager) (id inv : Nat) : ActionManager × Nat :=
  (append_invocation m id inv, id)

/-- `ActionManager.invocations`: the stored invocations, in insertion
order (the Python dict's value order), as copied out under the lock. -/
def invocations (m : ActionManager) : List Nat :=
  m.invocationsDict.map Prod.snd

/-- The ids present in the registry, in insertion order. -/
def registryIds (m : ActionManager) : List Nat :=
  m.invocationsDict.map Prod.fst

/-- The GET endpoint `action_invocation`: look the id up in
`_invocations` under the registry lock; an unknown id turns the
`KeyError` into `HTTPException(status_code=404, ...)` (NotFound). -/
def get_invocation (m : ActionManager) (id : Nat) : Except (Nat × String) Nat :=
  match m.invocationsDict.lookup id with
  | some inv => .ok inv
  | none => .error (404, "No action invocation found with ID \x7bid\x7d")

/-- Whether `get_invocation` succeeds for this id. -/
def getSucceeds (m : ActionManager) (id : Nat) : Bool :=
  (m.invocationsDict.lookup id).isSome

/-- The operations that touch the registry during the lifetime of the
process: `invoke_action` (the only mutation — an insertion), listing, and
get-by-id (both pure reads; nothing ever removes an entry). -/
inductive RegOp where
  | invoke (id inv : Nat)
  | listAll
  | getById (id : Nat)
deriving DecidableEq, Repr

/-- Effect of one registry operation on the `ActionManager`. -/
def applyOp (m : ActionManager) : RegOp → ActionManager
  | .invoke id inv => (invoke_action m id inv).1
  | .listAll => m
  | .getById _ => m

/-- Effect of a sequence of registry operations. -/
def applyOps (m : ActionManager) (ops : List RegOp) : ActionManager :=
  ops.foldl applyOp m

/-- The locks in play around one invocation's mutable state: the
invocation's own `_status_lock`; the re-entrant lock that
`logging.Handler.__init__` creates for each handler (`self.lock`); and
the manager's `_invocations_lock`. -/
inductive LockId where
  | statusLock
  | handlerInternalLock
  | invocationsLock
deriving DecidableEq, Repr

/-- The accesses the source makes to an invocation's mutable fields
(status, timestamps, output, log): the `output`, `log` and `status`
property reads; the three timestamp reads inside `Invocation.response`;
the mutations inside `Invocation.run`; and the append to the shared log
deque inside `ThreadLogHandler.emit`. -/
inductive FieldAccess where
  | outputRead
  | logRead
  | statusRead
  | responseStartTimeRead
  | responseEndTimeRead
  | responseRequestTimeRead
  | runSetRunning
  | runSetCompleted
  | runSetCancelled
  | runSetError
  | runSetEndTime
  | emitLogAppend
deriving DecidableEq, Repr

/-- The locks the source holds around each access, one row per `with`
statement (or its absence) in `actions.py`: the `output`, `log` and
`status` properties and every mutation block in `run` execute under
`with self._status_lock`; `Invocation.response` reads `_start_time`,
`_end_time` and `_request_time` directly with no lock held; and
`ThreadLogHandler.emit` appends to the deque under `with self.lock`,
which is the handler's own re-entrant lock created by
`logging.Handler.__init__` — the `lock` argument that
`ThreadLogHandler.__init__` receives (the invocation's `_status_lock` at
the call site in `run`) is never assigned to any attribute. -/
def locksHeld : FieldAccess → List LockId
  | .outputRead => [.statusLock]
  | .logRead => [.statusLock]
  | .statusRead => [.statusLock]
  | .responseStartTimeRead => []
  | .responseEndTimeRead => []
  | .responseRequestTimeRead => []
  | .runSetRunning => [.statusLock]
  | .runSetCompleted => [.statusLock]
  | .runSetCancelled => [.statusLock]
  | .runSetError => [.statusLock]
  | .runSetEndTime => [.statusLock]
  | .emitLogAppend => [.handlerInternalLock]

/-- Events of the dispatcher and of invocation threads concerning one
invocation `i`: the dispatcher's `invoke_action` body performs `create i`
(the `Invocation(...)` constructor), `register i` (`append_invocation`)
and `start i` (`thread.start()`); the started thread then performs
`setRunning i` (the lock block at the top of `run`) and
`setTerminal i st` (one of the terminal-status lock blocks). -/
inductive SysEvent where
  | create (i : Nat)
  | register (i : Nat)
  | start (i : Nat)
  | setRunning (i : Nat)
  | setTerminal (i : Nat) (st : InvocationStatus)
deriving DecidableEq, Repr

/-- The registry-relevant events `invoke_action` performs for one
invocation, in the order of the source lines: construct the invocation,
insert it into the registry, start its thread. -/
def invokeEvents (i : Nat) : List SysEvent :=
  [.create i, .register i, .start i]

/-- Whether an event belongs to the dispatcher's `invoke_action` body for
invocation `i`. -/
def isDispatchEvent (i : Nat) : SysEvent → Bool
  | .create j => i == j
  | .register j => i == j
  | .start j => i == j
  | _ => false

/-- Threading semantics: the run thread of invocation `i` does not exist
before `thread.start()` returns, so it may mark itself RUNNING only after
`start i` has happened, and it records a terminal status only after its
own RUNNING block.  `seen` holds the events that happened earlier. -/
def eventAllowed (seen : List SysEvent) : SysEvent → Prop
  | .setRunning i => SysEvent.start i ∈ seen
  | .setTerminal i _ => SysEvent.setRunning i ∈ seen
  | _ => True

/-- Every event of the list is allowed given the events before it. -/
def threadOkAux (seen : List SysEvent) : List SysEvent → Prop
  | [] => True
  | e :: rest => eventAllowed seen e ∧ threadOkAux (seen ++ [e]) rest

/-- A system trace: an interleaving of dispatcher and thread events in
which, for every invocation `i`, the dispatcher events for `i` occur in
the source order of `invoke_action` (they form a prefix of
`invokeEvents i`), and the thread events obey the threading
semantics. -/
def SystemTrace (tr : List SysEvent) : Prop :=
  (∀ i, ∃ t, tr.filter (isDispatchEvent i) ++ t = invokeEvents i) ∧
  threadOkAux [] tr

/-- The status an event assigns to invocation `i`, if any. -/
def statusEvent (i : Nat) : SysEvent → Option InvocationStatus
  | .create j => if i = j then some .pending else none
  | .setRunning j => if i = j then some .running else none
  | .setTerminal j st => if i = j then some st else none
  | _ => none

/-- The status of invocation `i` after the events of `tr`: the last
status any event assigned to it (`none` when `i` was never created). -/
def statusAfter (tr : List SysEvent) (i : Nat) : Option InvocationStatus :=
  (tr.filterMap (statusEvent i)).getLast?

/-- Invocation `i` is present in the registry after the events of
`tr`. -/
def registered (tr : List SysEvent) (i : Nat) : Prop :=
  SysEvent.register i ∈ tr

/-- A concrete system trace: one invocation dispatched and running. -/
def exampleTrace : List SysEvent :=
  [.create 1, .register 1, .start 1, .setRunning 1]

/-- Appending to the bounded deque always keeps the most recent elements:
the result is the concatenation with the overflow dropped from the
left. -/
theorem dequeAppend_eq_drop (m : Nat) (buf : List LogRecord) (r : LogRecord) :
    dequeAppend m buf r = (buf ++ [r]).drop (buf.length + 1 - m) := by
  unfold dequeAppend
  split
  · have h0 : buf.length + 1 - m = 0 := by omega
    rw [h0, List.drop_zero]
  · rfl

/-- Appending to a deque within capacity keeps it within capacity. -/
theorem dequeAppend_length_le (m : Nat) (buf : List LogRecord) (r : LogRecord)
    (h : buf.length ≤ m) : (dequeAppend m buf r).length ≤ m := by
  rw [dequeAppend_eq_drop, List.length_drop, List.length_append]
  simp only [List.length_singleton]
  omega

/-- Folding the bounded append over a record sequence from any buffer
within capacity keeps exactly the most recent elements. -/
theorem foldl_dequeAppend (m : Nat) (rs : List LogRecord) :
    ∀ buf : List LogRecord, buf.length ≤ m →
      List.foldl (dequeAppend m) buf rs
        = (buf ++ rs).drop (buf.length + rs.length - m) := by
  induction rs with
  | nil =>
    intro buf h
    simp [Nat.sub_eq_zero_of_le h]
  | cons r rs ih =>
    intro buf h
    rw [List.foldl_cons, ih _ (dequeAppend_length_le m buf r h),
      dequeAppend_eq_drop]
    rw [← List.drop_append_of_le_length (by simp)]
    rw [List.drop_drop, List.append_assoc, List.singleton_append]
    congr 1
    rw [List.length_drop, List.length_append, List.length_singleton,
      List.length_cons]
    omega

/-- The captured log is exactly the suffix of the emitted records that
fits the capacity. -/
theorem captureLog_eq_drop (m : Nat) (records : List LogRecord) :
    captureLog m records = records.drop (records.length - m) := by
  have h := foldl_dequeAppend m records [] (by simp)
  simpa [captureLog] using h

/-- The captured log never exceeds the capacity. -/
theorem captureLog_length_le (m : Nat) (records : List LogRecord) :
    (captureLog m records).length ≤ m := by
  rw [captureLog_eq_drop, List.length_drop]
  omega

/-- Inserting a fresh key into a Python dict appends it: the key order
becomes the old order with the new key at the end. -/
theorem registryIds_dictInsert_fresh (l : List (Nat × Nat)) (k v : Nat)
    (h : k ∉ l.map Prod.fst) :
    (dictInsert l k v).map Prod.fst = l.map Prod.fst ++ [k] := by
  induction l with
  | nil => rfl
  | cons p rest ih =>
    obtain ⟨k0, v0⟩ := p
    simp only [List.map_cons, List.mem_cons] at h
    push_neg at h
    obtain ⟨h1, h2⟩ := h
    have hne : ¬ k0 = k := fun hh => h1 hh.symm
    simp only [dictInsert, if_neg hne, List.map_cons]
    rw [ih h2, List.cons_append]

/-- Looking up the key just inserted finds the inserted value. -/
theorem lookup_dictInsert_self (l : List (Nat × Nat)) (k v : Nat) :
    (dictInsert l k v).lookup k = some v := by
  induction l with
  | nil => simp [dictInsert, List.lookup]
  | cons p rest ih =>
    obtain ⟨k0, v0⟩ := p
    by_cases hk : k0 = k
    · subst hk
      simp [dictInsert, List.lookup]
    · have hk2 : ¬ k = k0 := fun hh => hk hh.symm
      have hb : (k == k0) = false := by simp [hk2]
      simp [dictInsert, hk, List.lookup_cons, hb, ih]

/-- Lookup in an association list succeeds exactly when the key is among
the stored keys. -/
theorem lookup_isSome_iff_mem (l : List (Nat × Nat)) (k : Nat) :
    (l.lookup k).isSome = true ↔ k ∈ l.map Prod.fst := by
  induction l with
  | nil => simp [List.lookup]
  | cons p rest ih =>
    obtain ⟨k0, v0⟩ := p
    by_cases hk : k0 = k
    · subst hk
      simp [List.lookup]
    · have hk2 : ¬ k = k0 := fun hh => hk hh.symm
      have hb : (k == k0) = false := by simp [hk2]
      simp only [List.lookup_cons, hb, List.map_cons, List.mem_cons]
      rw [ih]
      simp [hk2]

/-- Inserting into a dict never removes a key. -/
theorem mem_map_fst_dictInsert (l : List (Nat × Nat)) (k v a : Nat)
    (h : a ∈ l.map Prod.fst) : a ∈ (dictInsert l k v).map Prod.fst := by
  induction l with
  | nil => simp at h
  | cons p rest ih =>
    obtain ⟨k0, v0⟩ := p
    by_cases hk : k0 = k
    · subst hk
      simpa [dictInsert] using h
    · simp only [List.map_cons, List.mem_cons] at h
      simp only [dictInsert, if_neg hk, List.map_cons, List.mem_cons]
      rcases h with h | h
      · exact Or.inl h
      · exact Or.inr (ih h)

/-- No registry operation removes an id. -/
theorem mem_registryIds_applyOp (m : ActionManager) (op : RegOp) (a : Nat)
    (h : a ∈ registryIds m) : a ∈ registryIds (applyOp m op) := by
  cases op with
  | invoke id inv =>
    simp only [applyOp, invoke_action, append_invocation, registryIds] at *
    exact mem_map_fst_dictInsert m.invocationsDict id inv a h
  | listAll => exact h
  | getById j => exact h

/-- No sequence of registry operations removes an id. -/
theorem mem_registryIds_applyOps (m : ActionManager) (ops : List RegOp) (a : Nat)
    (h : a ∈ registryIds m) : a ∈ registryIds (applyOps m ops) := by
  induction ops generalizing m with
  | nil => exact h
  | cons op rest ih => exact ih (applyOp m op) (mem_registryIds_applyOp m op a h)

/-- Get-by-id on an id that is not in the registry raises NotFound. -/
theorem get_invocation_of_not_mem (m : ActionManager) (j : Nat)
    (h : j ∉ registryIds m) :
    get_invocation m j
      = .error (404, "No action invocation found with ID \x7bid\x7d") := by
  unfold get_invocation
  have hnone : m.invocationsDict.lookup j = none := by
    cases hl : m.invocationsDict.lookup j with
    | none => rfl
    | some v =>
      exact absurd ((lookup_isSome_iff_mem m.invocationsDict j).mp
        (by rw [hl]; rfl)) h
  rw [hnone]

/-- A prefix of an event list satisfying the thread semantics satisfies
them as well. -/
theorem threadOkAux_append_left :
    ∀ (l1 l2 seen : List SysEvent),
      threadOkAux seen (l1 ++ l2) → threadOkAux seen l1 := by
  intro l1
  induction l1 with
  | nil => intro l2 seen _; trivial
  | cons e rest ih =>
    intro l2 seen h
    obtain ⟨h1, h2⟩ := h
    exact ⟨h1, ih l2 (seen ++ [e]) h2⟩

/-- A thread event marking RUNNING is preceded by the start of that
thread. -/
theorem threadOkAux_setRunning_start (i : Nat) :
    ∀ (l seen : List SysEvent), threadOkAux seen l →
      SysEvent.setRunning i ∈ l → SysEvent.start i ∈ seen ++ l := by
  intro l
  induction l with
  | nil => intro seen _ hm; cases hm
  | cons e rest ih =>
    intro seen hok hm
    obtain ⟨h1, h2⟩ := hok
    rcases List.mem_cons.mp hm with heq | hm2
    · subst heq
      exact List.mem_append_left _ h1
    · have h3 := ih (seen ++ [e]) h2 hm2
      rw [List.append_assoc] at h3
      simpa using h3

/-- A thread event recording a terminal status is preceded by that
thread's RUNNING transition. -/
theorem threadOkAux_setTerminal_setRunning (i : Nat) (st : InvocationStatus) :
    ∀ (l seen : List SysEvent), threadOkAux seen l →
      SysEvent.setTerminal i st ∈ l → SysEvent.setRunning i ∈ seen ++ l := by
  intro l
  induction l with
  | nil => intro seen _ hm; cases hm
  | cons e rest ih =>
    intro seen hok hm
    obtain ⟨h1, h2⟩ := hok
    rcases List.mem_cons.mp hm with heq | hm2
    · subst heq
      exact List.mem_append_left _ h1
    · have h3 := ih (seen ++ [e]) h2 hm2
      rw [List.append_assoc] at h3
      simpa using h3

/-- Filtering a take-prefix yields a prefix of the filtered list. -/
theorem filter_take_isPre (p : SysEvent → Bool) (tr : List SysEvent) (k : Nat) :
    ∃ t, (tr.take k).filter p ++ t = tr.filter p := by
  refine ⟨(tr.drop k).filter p, ?_⟩
  rw [← List.filter_append, List.take_append_drop]

/-- In any prefix of the dispatcher's `invoke_action` event sequence, the
start event can only appear after the registration event. -/
theorem mem_register_of_mem_start (i : Nat) (p t : List SysEvent)
    (h : p ++ t = invokeEvents i) (hs : SysEvent.start i ∈ p) :
    SysEvent.register i ∈ p := by
  rcases p with _ | ⟨x, p1⟩
  · cases hs
  rcases p1 with _ | ⟨y, p2⟩
  · simp only [invokeEvents, List.cons_append, List.nil_append,
      List.cons.injEq] at h
    obtain ⟨rfl, -⟩ := h
    simp at hs
  rcases p2 with _ | ⟨z, p3⟩
  · simp only [invokeEvents, List.cons_append, List.nil_append,
      List.cons.injEq] at h
    obtain ⟨rfl, rfl, -⟩ := h
    simp at hs
  · simp only [invokeEvents, List.cons_append, List.cons.injEq] at h
    obtain ⟨rfl, rfl, rfl, -⟩ := h
    simp

/-- C1: for every Invocation, the status field follows exactly the
transitions PENDING → RUNNING → (COMPLETED or CANCELLED or ERROR): along
the observable trace of `run`, every consecutive pair of statuses is
either equal or an allowed edge, a terminal status is never followed by a
different one, and the whole sequence of statuses (hence any subsequence
read across repeated polls) is non-decreasing in the order
PENDING < RUNNING < terminal. -/
theorem c1_status_transitions_monotone (t0 t1 t2 : Nat) (sc : RunScenario) :
    List.Chain' (fun a b => a = b ∨ allowedEdge a b = true)
      ((runTrace (initState t0) sc t1 t2).map InvState.status) ∧
    List.Chain' (fun a b => a.isTerminal = true → b = a)
      ((runTrace (initState t0) sc t1 t2).map InvState.status) ∧
    List.Pairwise (fun a b => statusRank a ≤ statusRank b)
      ((runTrace (initState t0) sc t1 t2).map InvState.status) := by
  rcases sc with _ | o
  · have h : (runTrace (initState t0) .preludeRaises t1 t2).map InvState.status
        = [.pending, .pending] := rfl
    rw [h]
    refine ⟨?_, ?_, by decide⟩ <;>
      simp [List.chain'_cons, List.chain'_singleton, allowedEdge, InvocationStatus.isTerminal]
  · rcases o with v | _ | msg | _
    · have h : (runTrace (initState t0) (.body (.returns v)) t1 t2).map InvState.status
          = [.pending, .pending, .running, .completed, .completed, .completed] := rfl
      rw [h]
      refine ⟨?_, ?_, by decide⟩ <;>
      simp [List.chain'_cons, List.chain'_singleton, allowedEdge, InvocationStatus.isTerminal]
    · have h : (runTrace (initState t0) (.body .raisesSystemExit) t1 t2).map InvState.status
          = [.pending, .pending, .running, .cancelled, .cancelled, .cancelled] := rfl
      rw [h]
      refine ⟨?_, ?_, by decide⟩ <;>
      simp [List.chain'_cons, List.chain'_singleton, allowedEdge, InvocationStatus.isTerminal]
    · have h : (runTrace (initState t0) (.body (.raisesException msg)) t1 t2).map InvState.status
          = [.pending, .pending, .running, .error, .error, .error] := rfl
      rw [h]
      refine ⟨?_, ?_, by decide⟩ <;>
      simp [List.chain'_cons, List.chain'_singleton, allowedEdge, InvocationStatus.isTerminal]
    · have h : (runTrace (initState t0) (.body .raisesOtherBaseException) t1 t2).map InvState.status
          = [.pending, .pending, .running, .running, .running] := rfl
      rw [h]
      refine ⟨?_, ?_, by decide⟩ <;>
      simp [List.chain'_cons, List.chain'_singleton, allowedEdge, InvocationStatus.isTerminal]

/-- C2: evidence against the claim.  When the prelude of `run` raises —
concretely, when `input` is `None` (its default) so that
`self.input.dict()` raises `AttributeError` before the `try` block is
entered — the invocation is left stuck in the non-terminal PENDING
status, `completedAt` is never set, and the log capture sink is never
detached: the guaranteed-cleanup step does not run, because the failing
statements sit outside the `try`/`finally`. -/
theorem c2_prelude_failure_skips_cleanup (t0 t1 t2 : Nat) :
    (runFinal (initState t0) .preludeRaises t1 t2).status = .pending ∧
    ((runFinal (initState t0) .preludeRaises t1 t2).status.isTerminal = false) ∧
    (runFinal (initState t0) .preludeRaises t1 t2).endTime = none ∧
    (runFinal (initState t0) .preludeRaises t1 t2).handlerAttached = true ∧
    (runSteps (initState t0) .preludeRaises t1 t2).getLast?
      = some (.reraise "prelude exception") :=
  ⟨rfl, rfl, rfl, rfl, rfl⟩

/-- C3: if the action body raises an unhandled `Exception`, the invocation
ends with status ERROR, output equal to the textual description of the
error, and `completedAt` set with `completedAt` at or after `startedAt`
(assuming the clock does not go backwards); the exception is re-raised to
the thread's fault channel as the very last step, after all state has been
recorded, and once a poll has observed ERROR every later poll observes
ERROR as well. -/
theorem c3_unhandled_error_recorded_before_reraise
    (t0 t1 t2 : Nat) (msg : String) (hclock : t1 ≤ t2) :
    (runFinal (initState t0) (.body (.raisesException msg)) t1 t2).status = .error ∧
    (runFinal (initState t0) (.body (.raisesException msg)) t1 t2).returnValue
      = .str msg ∧
    (∃ a b, (runFinal (initState t0) (.body (.raisesException msg)) t1 t2).startTime
        = some a ∧
      (runFinal (initState t0) (.body (.raisesException msg)) t1 t2).endTime
        = some b ∧ a ≤ b) ∧
    (runSteps (initState t0) (.body (.raisesException msg)) t1 t2).getLast?
      = some (.reraise msg) ∧
    List.Pairwise (fun a b => a = .error → b = .error)
      ((runTrace (initState t0) (.body (.raisesException msg)) t1 t2).map
        InvState.status) := by
  refine ⟨rfl, rfl, ⟨t1, t2, rfl, rfl, hclock⟩, rfl, ?_⟩
  have h : (runTrace (initState t0) (.body (.raisesException msg)) t1 t2).map
      InvState.status = [.pending, .pending, .running, .error, .error, .error] := rfl
  rw [h]
  decide

/-- Witness for `c3_unhandled_error_recorded_before_reraise` at a concrete
input. -/
theorem c3_unhandled_error_witness :
    (runFinal (initState 0) (.body (.raisesException "boom")) 1 2).status = .error ∧
    (runFinal (initState 0) (.body (.raisesException "boom")) 1 2).returnValue
      = .str "boom" ∧
    (∃ a b, (runFinal (initState 0) (.body (.raisesException "boom")) 1 2).startTime
        = some a ∧
      (runFinal (initState 0) (.body (.raisesException "boom")) 1 2).endTime
        = some b ∧ a ≤ b) ∧
    (runSteps (initState 0) (.body (.raisesException "boom")) 1 2).getLast?
      = some (.reraise "boom") ∧
    List.Pairwise (fun a b => a = .error → b = .error)
      ((runTrace (initState 0) (.body (.raisesException "boom")) 1 2).map
        InvState.status) :=
  c3_unhandled_error_recorded_before_reraise 0 1 2 "boom" (by decide)

/-- C4 (amended): at every observable moment of a run, the output accessor
returns exactly the value `expectedOutput` prescribes for the current
status — the action's return value when COMPLETED, the error description
when ERROR, and the absent value whenever the status is PENDING, RUNNING
or CANCELLED.  (The biconditional "output is populated iff COMPLETED or
ERROR" fails when the action returns `None`; see the counterexample.) -/
theorem c4_output_matches_status (t0 t1 t2 : Nat) (sc : RunScenario) (s : InvState)
    (hs : s ∈ runTrace (initState t0) sc t1 t2) :
    s.returnValue = expectedOutput sc s.status := by
  rcases sc with _ | o
  · have h : runTrace (initState t0) .preludeRaises t1 t2 =
        [⟨.pending, .none, t0, none, none, none, false, false⟩,
         ⟨.pending, .none, t0, none, none, none, false, true⟩] := rfl
    rw [h] at hs
    simp only [List.mem_cons, List.not_mem_nil, or_false] at hs
    rcases hs with rfl | rfl <;> rfl
  · rcases o with v | _ | msg | _
    · have h : runTrace (initState t0) (.body (.returns v)) t1 t2 =
          [⟨.pending, .none, t0, none, none, none, false, false⟩,
           ⟨.pending, .none, t0, none, none, none, false, true⟩,
           ⟨.running, .none, t0, some t1, none, none, false, true⟩,
           ⟨.completed, v, t0, some t1, none, none, false, true⟩,
           ⟨.completed, v, t0, some t1, some t2, none, false, true⟩,
           ⟨.completed, v, t0, some t1, some t2, none, false, false⟩] := rfl
      rw [h] at hs
      simp only [List.mem_cons, List.not_mem_nil, or_false] at hs
      rcases hs with rfl | rfl | rfl | rfl | rfl | rfl <;> rfl
    · have h : runTrace (initState t0) (.body .raisesSystemExit) t1 t2 =
          [⟨.pending, .none, t0, none, none, none, false, false⟩,
           ⟨.pending, .none, t0, none, none, none, false, true⟩,
           ⟨.running, .none, t0, some t1, none, none, false, true⟩,
           ⟨.cancelled, .none, t0, some t1, none, none, false, true⟩,
           ⟨.cancelled, .none, t0, some t1, some t2, none, false, true⟩,
           ⟨.cancelled, .none, t0, some t1, some t2, none, false, false⟩] := rfl
      rw [h] at hs
      simp only [List.mem_cons, List.not_mem_nil, or_false] at hs
      rcases hs with rfl | rfl | rfl | rfl | rfl | rfl <;> rfl
    · have h : runTrace (initState t0) (.body (.raisesException msg)) t1 t2 =
          [⟨.pending, .none, t0, none, none, none, false, false⟩,
           ⟨.pending, .none, t0, none, none, none, false, true⟩,
           ⟨.running, .none, t0, some t1, none, none, false, true⟩,
           ⟨.error, .str msg, t0, some t1, none, some msg, false, true⟩,
           ⟨.error, .str msg, t0, some t1, some t2, some msg, false, true⟩,
           ⟨.error, .str msg, t0, some t1, some t2, some msg, false, false⟩] := rfl
      rw [h] at hs
      simp only [List.mem_cons, List.not_mem_nil, or_false] at hs
      rcases hs with rfl | rfl | rfl | rfl | rfl | rfl <;> rfl
    · have h : runTrace (initState t0) (.body .raisesOtherBaseException) t1 t2 =
          [⟨.pending, .none, t0, none, none, none, false, false⟩,
           ⟨.pending, .none, t0, none, none, none, false, true⟩,
           ⟨.running, .none, t0, some t1, none, none, false, true⟩,
           ⟨.running, .none, t0, some t1, some t2, none, false, true⟩,
           ⟨.running, .none, t0, some t1, some t2, none, false, false⟩] := rfl
      rw [h] at hs
      simp only [List.mem_cons, List.not_mem_nil, or_false] at hs
      rcases hs with rfl | rfl | rfl | rfl | rfl <;> rfl

/-- Witness for `c4_output_matches_status` at a concrete state of a
concrete run. -/
theorem c4_output_matches_status_witness :
    (⟨.completed, .obj 7, 0, some 1, some 2, none, false, true⟩ :
        InvState).returnValue
      = expectedOutput (.body (.returns (.obj 7)))
        (⟨.completed, .obj 7, 0, some 1, some 2, none, false, true⟩ :
          InvState).status :=
  c4_output_matches_status 0 1 2 (.body (.returns (.obj 7)))
    ⟨.completed, .obj 7, 0, some 1, some 2, none, false, true⟩ (by decide)

/-- C4: counterexample to the claim as stated.  An action that returns
`None` ends COMPLETED with the output accessor returning the absent
value, so "output is populated if and only if status is COMPLETED or
ERROR" is false. -/
theorem c4_populated_iff_counterexample :
    (runFinal (initState 0) (.body (.returns .none)) 1 2).status = .completed ∧
    (runFinal (initState 0) (.body (.returns .none)) 1 2).returnValue = .none ∧
    ¬ ((runFinal (initState 0) (.body (.returns .none)) 1 2).returnValue ≠ .none ↔
      ((runFinal (initState 0) (.body (.returns .none)) 1 2).status = .completed ∨
       (runFinal (initState 0) (.body (.returns .none)) 1 2).status = .error)) := by
  refine ⟨rfl, rfl, ?_⟩
  decide

/-- C7: an action body that exits via `SystemExit` (the cooperative-exit
signal raised by `invocation_context.stop` style code observing the stop
flag) ends with status CANCELLED, no output and no recorded exception;
and `requestStop` only sets the advisory `stopping` flag — it changes no
other field, and the run of the invocation (its observable status
sequence) is identical whether or not the flag was set. -/
theorem c7_cancelled_on_systemexit_requeststop_advisory
    (t0 t1 t2 : Nat) (s : InvState) (sc : RunScenario) :
    requestStop s = { s with stopping := true } ∧
    ((runTrace (requestStop (initState t0)) sc t1 t2).map InvState.status
      = (runTrace (initState t0) sc t1 t2).map InvState.status) ∧
    (runFinal (requestStop (initState t0)) (.body .raisesSystemExit) t1 t2).status
      = .cancelled ∧
    (runFinal (requestStop (initState t0)) (.body .raisesSystemExit) t1 t2).returnValue
      = .none ∧
    (runFinal (requestStop (initState t0)) (.body .raisesSystemExit) t1 t2).exception
      = none := by
  refine ⟨rfl, ?_, rfl, rfl, rfl⟩
  rcases sc with _ | o
  · rfl
  · rcases o with v | _ | msg | _ <;> rfl

/-- C5: for an invocation whose log deque has capacity `n` and into which
`m > n` matching records are emitted, the final captured log has exactly
`n` records, namely the most recent `n` in emission order (the suffix of
the emitted sequence), and after every prefix of the emissions the buffer
length is at most `n` (ring-buffer discipline, oldest evicted first). -/
theorem c5_log_capacity_ring_buffer (n m : Nat) (records : List LogRecord)
    (hm : records.length = m) (hnm : n < m) :
    (captureLog n records).length = n ∧
    captureLog n records = records.drop (m - n) ∧
    (∀ k, (captureLog n (records.take k)).length ≤ n) := by
  refine ⟨?_, ?_, fun k => captureLog_length_le n (records.take k)⟩
  · rw [captureLog_eq_drop, List.length_drop]
    omega
  · rw [captureLog_eq_drop, hm]

/-- Witness for `c5_log_capacity_ring_buffer`: capacity 2, three records
emitted, the two most recent survive. -/
theorem c5_log_capacity_witness :
    (captureLog 2 [⟨1, 20, "a"⟩, ⟨1, 20, "b"⟩, ⟨1, 20, "c"⟩]).length = 2 ∧
    captureLog 2 [⟨1, 20, "a"⟩, ⟨1, 20, "b"⟩, ⟨1, 20, "c"⟩]
      = List.drop (3 - 2) [⟨1, 20, "a"⟩, ⟨1, 20, "b"⟩, ⟨1, 20, "c"⟩] ∧
    (∀ k,
      (captureLog 2
        (List.take k [⟨1, 20, "a"⟩, ⟨1, 20, "b"⟩, ⟨1, 20, "c"⟩])).length ≤ 2) :=
  c5_log_capacity_ring_buffer 2 3 [⟨1, 20, "a"⟩, ⟨1, 20, "b"⟩, ⟨1, 20, "c"⟩]
    (by decide) (by decide)

/-- C6: the `check_thread` filter forwards a record exactly when the
identity of the thread emitting it equals the target invocation thread's
identity; consequently, for two handlers installed by two concurrently
dispatched invocations (distinct live threads have distinct identities),
each captured log contains only records emitted from its own thread and
none from the other's, for any interleaving of the global record
stream. -/
theorem c6_filter_isolates_threads (h1 h2 : ThreadLogHandler)
    (stream : List LogRecord) (hne : h1.thread_ident ≠ h2.thread_ident) :
    (∀ tid, check_thread tid h1.thread_ident = 1 ↔ tid = h1.thread_ident) ∧
    (∀ r ∈ capturedRecords h1 stream,
      r.tid = h1.thread_ident ∧ r.tid ≠ h2.thread_ident) := by
  have hiff : ∀ tid target, check_thread tid target = 1 ↔ tid = target := by
    intro tid target
    unfold check_thread
    split <;> simp_all
  refine ⟨fun tid => hiff tid h1.thread_ident, ?_⟩
  intro r hr
  have hacc : handlerAccepts h1 r = true := List.of_mem_filter hr
  rw [handlerAccepts, Bool.and_eq_true, decide_eq_true_iff, decide_eq_true_iff]
    at hacc
  have htid : r.tid = h1.thread_ident := (hiff r.tid h1.thread_ident).mp hacc.2
  exact ⟨htid, by rw [htid]; exact hne⟩

/-- Witness for `c6_filter_isolates_threads`: two handlers for threads 1
and 2, a stream interleaving records from both threads. -/
theorem c6_filter_isolates_witness :
    (∀ tid, check_thread tid (ThreadLogHandler.mk 1 20).thread_ident = 1 ↔
      tid = (ThreadLogHandler.mk 1 20).thread_ident) ∧
    (∀ r ∈ capturedRecords ⟨1, 20⟩
        [⟨1, 20, "a"⟩, ⟨2, 30, "b"⟩, ⟨1, 40, "c"⟩, ⟨2, 20, "d"⟩],
      r.tid = (ThreadLogHandler.mk 1 20).thread_ident ∧
      r.tid ≠ (ThreadLogHandler.mk 2 20).thread_ident) :=
  c6_filter_isolates_threads ⟨1, 20⟩ ⟨2, 20⟩
    [⟨1, 20, "a"⟩, ⟨2, 30, "b"⟩, ⟨1, 40, "c"⟩, ⟨2, 20, "d"⟩] (by decide)

/-- C8: after `invoke_action` registers a fresh id, the id appears in the
registry at the end of the registration order, `get` on it succeeds, it
remains present and retrievable after any further sequence of registry
operations (entries are never removed), and `get` on an id that was never
dispatched fails with the 404 NotFound error. -/
theorem c8_registry_retains_ids (m m0 : ActionManager) (id inv j : Nat)
    (hfresh : id ∉ registryIds m) (ops : List RegOp)
    (hj : j ∉ registryIds m0) :
    registryIds (invoke_action m id inv).1 = registryIds m ++ [id] ∧
    get_invocation (invoke_action m id inv).1 id = .ok inv ∧
    id ∈ registryIds (applyOps (invoke_action m id inv).1 ops) ∧
    getSucceeds (applyOps (invoke_action m id inv).1 ops) id = true ∧
    get_invocation m0 j
      = .error (404, "No action invocation found with ID \x7bid\x7d") := by
  have h1 : registryIds (invoke_action m id inv).1 = registryIds m ++ [id] :=
    registryIds_dictInsert_fresh m.invocationsDict id inv hfresh
  have h3 : id ∈ registryIds (applyOps (invoke_action m id inv).1 ops) := by
    apply mem_registryIds_applyOps
    rw [h1]
    simp
  refine ⟨h1, ?_, h3, ?_, get_invocation_of_not_mem m0 j hj⟩
  · show get_invocation ⟨dictInsert m.invocationsDict id inv⟩ id = .ok inv
    unfold get_invocation
    rw [lookup_dictInsert_self]
  · exact (lookup_isSome_iff_mem _ _).mpr h3

/-- Witness for `c8_registry_retains_ids`: an empty registry, a fresh id
5, three further operations, and a never-dispatched id 7 against a
one-entry registry. -/
theorem c8_registry_retains_ids_witness :
    registryIds (invoke_action ⟨[]⟩ 5 9).1 = registryIds ⟨[]⟩ ++ [5] ∧
    get_invocation (invoke_action ⟨[]⟩ 5 9).1 5 = .ok 9 ∧
    5 ∈ registryIds
      (applyOps (invoke_action ⟨[]⟩ 5 9).1 [.invoke 6 10, .listAll, .getById 5]) ∧
    getSucceeds
      (applyOps (invoke_action ⟨[]⟩ 5 9).1 [.invoke 6 10, .listAll, .getById 5]) 5
      = true ∧
    get_invocation ⟨[(1, 2)]⟩ 7
      = .error (404, "No action invocation found with ID \x7bid\x7d") :=
  c8_registry_retains_ids ⟨[]⟩ ⟨[(1, 2)]⟩ 5 9 7 (by decide)
    [.invoke 6 10, .listAll, .getById 5] (by decide)

/-- C9: evidence against the claim.  Not every access to an Invocation's
mutable fields acquires the per-invocation `_status_lock`:
`Invocation.response` reads `_start_time`, `_end_time` and
`_request_time` with no lock held, and `ThreadLogHandler.emit` appends to
the shared log deque under the handler's own internal lock (the
`_status_lock` passed to its constructor is never stored), not the
invocation's mutex. -/
theorem c9_lock_discipline_not_uniform :
    locksHeld .responseStartTimeRead = [] ∧
    locksHeld .responseEndTimeRead = [] ∧
    locksHeld .responseRequestTimeRead = [] ∧
    locksHeld .emitLogAppend = [.handlerInternalLock] ∧
    LockId.statusLock ∉ locksHeld .emitLogAppend ∧
    ¬ (∀ a : FieldAccess, LockId.statusLock ∈ locksHeld a) := by
  refine ⟨rfl, rfl, rfl, rfl, by decide, fun h => ?_⟩
  have h2 := h .responseStartTimeRead
  simp [locksHeld] at h2

/-- The example trace is a valid system trace. -/
theorem exampleTrace_systemTrace : SystemTrace exampleTrace := by
  constructor
  · intro j
    by_cases hj : j = 1
    · subst hj
      exact ⟨[], by decide⟩
    · refine ⟨invokeEvents j, ?_⟩
      have hf : exampleTrace.filter (isDispatchEvent j) = [] := by
        simp [exampleTrace, isDispatchEvent, hj]
      rw [hf]
      rfl
  · exact ⟨trivial, trivial, trivial, by simp [eventAllowed], trivial⟩

/-- C10: in `invoke_action` the new Invocation is inserted into the
registry strictly before its execution thread is started (the
dispatcher's events form a prefix of `invokeEvents`), so at every moment
of every system trace, an invocation whose observed status is RUNNING or
terminal is already registered. -/
theorem c10_running_implies_registered (tr : List SysEvent)
    (h : SystemTrace tr) (k i : Nat) (st : InvocationStatus)
    (hst : statusAfter (tr.take k) i = some st) (hns : st ≠ .pending) :
    registered (tr.take k) i := by
  obtain ⟨hdisp, hthread⟩ := h
  have hthreadp : threadOkAux [] (tr.take k) := by
    apply threadOkAux_append_left (tr.take k) (tr.drop k) []
    rw [List.take_append_drop]
    exact hthread
  have hmemLast : st ∈ (tr.take k).filterMap (statusEvent i) :=
    List.mem_of_getLast?_eq_some hst
  obtain ⟨e, hep, hse⟩ := List.mem_filterMap.mp hmemLast
  have hrun : SysEvent.setRunning i ∈ tr.take k := by
    cases e with
    | create j =>
      simp only [statusEvent] at hse
      split at hse
      · exact absurd (Option.some.inj hse).symm hns
      · exact Option.noConfusion hse
    | register j => simp [statusEvent] at hse
    | start j => simp [statusEvent] at hse
    | setRunning j =>
      simp only [statusEvent] at hse
      split at hse
      · rename_i hij
        subst hij
        exact hep
      · exact Option.noConfusion hse
    | setTerminal j st2 =>
      simp only [statusEvent] at hse
      split at hse
      · rename_i hij
        subst hij
        have h2 := threadOkAux_setTerminal_setRunning i st2 (tr.take k) []
          hthreadp hep
        simpa using h2
      · exact Option.noConfusion hse
  have hstart : SysEvent.start i ∈ tr.take k := by
    have h3 := threadOkAux_setRunning_start i (tr.take k) [] hthreadp hrun
    simpa using h3
  obtain ⟨t1, ht1⟩ := filter_take_isPre (isDispatchEvent i) tr k
  obtain ⟨t2, ht2⟩ := hdisp i
  have hpre : (tr.take k).filter (isDispatchEvent i) ++ (t1 ++ t2)
      = invokeEvents i := by
    rw [← List.append_assoc, ht1, ht2]
  have hstartf : SysEvent.start i ∈ (tr.take k).filter (isDispatchEvent i) :=
    List.mem_filter.mpr ⟨hstart, by simp [isDispatchEvent]⟩
  have hregf := mem_register_of_mem_start i _ _ hpre hstartf
  exact (List.mem_filter.mp hregf).1

/-- Witness for `c10_running_implies_registered`: one invocation
dispatched and observed RUNNING after four events is registered. -/
theorem c10_running_implies_registered_witness :
    registered (exampleTrace.take 4) 1 :=
  c10_running_implies_registered exampleTrace exampleTrace_systemTrace 4 1
    .running (by decide) (by decide)

end LabThings
